import Mathlib

/-!
Verification of the wherewild design-system token pipeline
(`src/scripts/tokens/app.mjs`) against its natural-language specification.

The JavaScript program is shallowly embedded: JS strings are modelled as
lists of characters (`Str`), JS objects with ordered keys as association
lists, and every helper of the source file becomes an executable Lean
definition carrying the same name where possible.  JSON numbers that flow
into string positions are represented by their JavaScript string form.
-/

/-- JS strings are modelled as lists of characters. -/
abbrev Str : Type := List Char

/-- Shorthand turning a Lean string literal into the `Str` model type. -/
def str (s : String) : Str := s.data

/-- Boolean prefix test on `Str` (JS `String.prototype.startsWith`). -/
def isPrefixL : Str → Str → Bool
  | [], _ => true
  | _ :: _, [] => false
  | a :: as, b :: bs => a == b && isPrefixL as bs

/-- JS `value.replace(pat, repl)` with a string pattern: replaces the first
occurrence only (an empty pattern matches at the start, as in JS). -/
def replaceFirstL (pat repl : Str) : Str → Str
  | [] => if pat = [] then repl else []
  | c :: t =>
    if isPrefixL pat (c :: t) then repl ++ (c :: t).drop pat.length
    else c :: replaceFirstL pat repl t

/-- Boolean substring test (JS `String.prototype.includes`, and
`String.prototype.match` with a plain-text regex coerced to truthiness). -/
def occurs (pat : Str) : Str → Bool
  | [] => isPrefixL pat []
  | c :: t => isPrefixL pat (c :: t) || occurs pat t

/-- JS `String.prototype.toLowerCase` (ASCII). -/
def toLowerL (s : Str) : Str := s.map Char.toLower

/-- JS `value.replace(/[. ]/g, "-")`. -/
def hyphSep (s : Str) : Str := s.map fun c => if c = '.' ∨ c = ' ' then '-' else c

/-- JS `value.replace(/^\x7b/, "")`: drop one leading opening brace. -/
def stripLeadBrace : Str → Str
  | '{' :: t => t
  | s => s

/-- JS `value.replace(/\x7d$/, "")`: drop one trailing closing brace. -/
def stripTrailBrace (s : Str) : Str :=
  match s.reverse with
  | '}' :: t => t.reverse
  | _ => s

/-- JS `Array.prototype.join(sep)`. -/
def joinSep (sep : Str) : List Str → Str
  | [] => []
  | [x] => x
  | x :: y :: t => x ++ sep ++ joinSep sep (y :: t)

/-- The test `value.toString().match(/^-?\d+(\.\d+)?$/)` of `valueToCSS`:
optional leading minus, digits, optional decimal point with digits. -/
def isNumericStr (s : Str) : Bool :=
  let body := fun (u : Str) =>
    let ds := u.takeWhile Char.isDigit
    let rest := u.dropWhile Char.isDigit
    decide (ds ≠ []) &&
      (decide (rest = []) ||
        (decide (rest.head? = some '.') && decide (rest.drop 1 ≠ []) &&
          (rest.drop 1).all Char.isDigit))
  match s with
  | '-' :: t => body t
  | _ => body s

/-- Decimal digits to the number they denote. -/
def digitsToNat (l : Str) : Nat := l.foldl (fun a c => a * 10 + (c.toNat - '0'.toNat)) 0

/-- JS `parseInt` restricted to the inputs it receives in `valueToCSS`
(strings matching `isNumericStr`): an optional sign and the leading run of
digits; everything from the decimal point on is discarded. -/
def parseIntLeading (s : Str) : Int :=
  match s with
  | '-' :: t => - (digitsToNat (t.takeWhile Char.isDigit) : Int)
  | _ => (digitsToNat (s.takeWhile Char.isDigit) : Int)

/-- Remove trailing `'0'` characters (for fraction rendering). -/
def stripTrailingZeros (l : Str) : Str := (l.reverse.dropWhile (· = '0')).reverse

/-- Left-pad a digit string with zeros to length `e`. -/
def padLeftZeros (e : Nat) (l : Str) : Str := List.replicate (e - l.length) '0' ++ l

/-- The JS string form of the exact rational `m / 10^e` (the dyadic and
ten-adic quotients produced by `valueToCSS` are exactly representable, and
JS prints their shortest decimal form: integer part, then the fractional
digits with trailing zeros removed). -/
def decimalOfScaled (m : Int) (e : Nat) : Str :=
  let a := m.natAbs
  let p := 10 ^ e
  let q := a / p
  let r := a % p
  let frac := stripTrailingZeros (padLeftZeros e (Nat.toDigits 10 r))
  let core := Nat.toDigits 10 q ++ (if frac = [] then [] else '.' :: frac)
  if m < 0 then '-' :: core else core

/-- The JS string `` `${n / 16}rem` `` for an integer `n`
(`n / 16 = n * 625 / 10000` exactly). -/
def formatRem (n : Int) : Str := decimalOfScaled (n * 625) 4 ++ str "rem"

/-- Parse a string matching `isNumericStr` into `(numerator, d)` with the
value `numerator / 10^d` (used to model JS numeric coercion in the ratio
branch). -/
def parseDecimalScaled (s : Str) : Option (Int × Nat) :=
  if isNumericStr s then
    let sgn : Int := if s.head? = some '-' then -1 else 1
    let u := if s.head? = some '-' then s.drop 1 else s
    let ip := u.takeWhile Char.isDigit
    let fp := (u.dropWhile Char.isDigit).drop 1
    some (sgn * (digitsToNat (ip ++ fp) : Int), fp.length)
  else none

/-- The ratio branch `Math.round(value * 10000) / 10000` of `valueToCSS`,
rendered to its JS string form; a non-numeric string propagates `NaN`. -/
def ratioCSS (s : Str) : Str :=
  match parseDecimalScaled s with
  | some (num, d) =>
    let rounded := Int.fdiv (num * 10000 * 2 + (10 ^ d : Nat)) (2 * (10 ^ d : Nat))
    decimalOfScaled rounded 4
  | none => str "NaN"

/-- A JS value flowing out of `valueToCSS`: either a string or a number
(numbers are carried in their JS string form; `valueWithReplacements`
treats the two differently because of its `typeof` check). -/
inductive JSVal where
  | strv (v : Str)
  | numv (v : Str)
deriving DecidableEq

/-- Embedding of `valueToCSS(property, value, definitionsKey, convertPixelToRem, prefix)`
from `src/scripts/tokens/app.mjs` (lines 423-453).  The JS parameter named
`prefix` is called `pfx` here. -/
def valueToCSS (property value definitionsKey : Str) (convertPixelToRem : Bool)
    (pfx : Str := []) : JSVal :=
  if value.head? = some '{' then
    .strv (str "var(--" ++
      stripTrailBrace (stripLeadBrace (hyphSep (replaceFirstL definitionsKey pfx value))) ++
      str ")")
  else
    let valueIsDigits := isNumericStr value
    let isRatio := occurs (str "ratio-") property
    let isNumeric := valueIsDigits &&
      !(occurs (str "weight") property || occurs (str "ratio-") property) && !isRatio
    if isNumeric then
      .strv (if convertPixelToRem then formatRem (parseIntLeading value) else value ++ str "px")
    else if isRatio then
      .numv (ratioCSS value)
    else if occurs (str "family-mono") property then
      .strv ('"' :: value ++ str "\", monospace")
    else if occurs (str "family-sans") property then
      .strv ('"' :: value ++ str "\", sans-serif")
    else if occurs (str "family-serif") property then
      .strv ('"' :: value ++ str "\", serif")
    else
      .strv value

/-- Association-list lookup with ordinary equality (JS object property read
`o[k]`, returning `undefined` as `none`). -/
def lookupA (k : Str) : List (Str × α) → Option α
  | [] => none
  | (k', v) :: t => if k' = k then some v else lookupA k t

/-- JS `a || b` for strings: `a` unless it is empty (falsy). -/
def jsOrL (a b : Str) : Str := if a = [] then b else a

/-- JS `a || b` where `a` may be `undefined` (`none`): empty and missing
strings both fall through to `b`. -/
def jsOrOpt (a : Option Str) (b : Str) : Str := jsOrL (a.getD []) b

/-- Module constant `CONVERT_TO_REM` (app.mjs line 12). -/
def CONVERT_TO_REM : Bool := true

/-- Module constant `TOKEN_PREFIX` (app.mjs line 17); renamed `tokenPfx`. -/
def tokenPfx : Str := str "wds-"

/-- Modelled from the spec: `KEY_PREFIX_COLLECTION` is imported from
`scripts/tokens/fromFigma.mjs`, which is not part of the sources; the spec
only says the token document is keyed by `<marker><collectionName>`.  The
concrete marker is taken from the `"@new_color_primitives"` replacement
entries of `COLLECTION_DATA` that parallel the computed
`` `${KEY_PREFIX_COLLECTION}responsive` `` keys.  No claim depends on the
marker's actual spelling. -/
def KEY_PREFIX_COLLECTION : Str := str "@"

/-- Module constant `NAMESPACES` (app.mjs line 14). -/
def NAMESPACES : List Str := [str "com.figma.wds", str "org.wds"]

/-- Per-leaf extension data under one of the `NAMESPACES` keys: a stable
Figma id and an optional mode-name → raw-value map (ordered). -/
structure ExtData where
  figmaId : Str
  modes : Option (List (Str × Str))
deriving DecidableEq

/-- Embedding of `getNamespaceData` (app.mjs lines 739-747). -/
def getNamespaceData (extensions : Option (List (Str × ExtData))) : Option ExtData :=
  match extensions with
  | none => none
  | some exts => NAMESPACES.findSome? fun ns => lookupA ns exts

/-- A node of the W3C token tree: the optional `$value`, `$type`,
`$description` and `$extensions` members plus the remaining (ordered)
children.  A node is a leaf iff `$value` is present.  Raw values are
carried in their JS string form. -/
inductive TokenNode where
  | obj (val : Option Str) (ty : Option Str) (desc : Option Str)
        (exts : Option (List (Str × ExtData))) (children : List (Str × TokenNode))

/-- One flat definition record produced by `traverse`. -/
structure FlatDef where
  property : Str
  propertyName : Str
  figmaId : Str
  description : Str
  value : Str
  type : Str
deriving DecidableEq

/-- The per-collection `definitions` object: ordered map
mode-name → list of flat definitions. -/
abbrev DefMap : Type := List (Str × List FlatDef)

/-- Embedding of `definitions[mode] = definitions[mode] || []; definitions[mode].push(d)`:
append to the mode's list, creating the key at the end on first use (JS
object insertion order). -/
def pushDef : DefMap → Str → FlatDef → DefMap
  | [], mode, d => [(mode, [d])]
  | (a, l) :: t, mode, d =>
    if a = mode then (a, l ++ [d]) :: t else (a, l) :: pushDef t mode d

/-- JS `key.split(/[^\dA-Za-z]/)`: split at every non-alphanumeric
character, keeping empty fragments. -/
def splitNonAlnum : Str → List Str
  | [] => [[]]
  | c :: t =>
    if c.isAlphanum then
      match splitNonAlnum t with
      | h :: r => (c :: h) :: r
      | [] => [[c]]
    else [] :: splitNonAlnum t

/-- JS `` `${k.charAt(0).toUpperCase()}${k.slice(1)}` ``. -/
def capFirst : Str → Str
  | [] => []
  | c :: t => c.toUpper :: t

/-- Lowercase the first character (for the camelCase `propertyName`). -/
def lowerFirst : Str → Str
  | [] => []
  | c :: t => c.toLower :: t

/-- The `valueWithReplacements` closure of `traverse` (app.mjs lines
339-345): non-strings (JS numbers, `JSVal.numv`) pass through unchanged;
strings get each `(find, replace)` pair applied once in table order and are
then lowercased. -/
def valueWithReplacements (replacements : List (Str × Str)) : JSVal → Str
  | .numv s => s
  | .strv s => toLowerL (replacements.foldl (fun acc pr => replaceFirstL pr.1 pr.2 acc) s)

mutual

/-- Embedding of `traverse` (app.mjs lines 319-412): walk a token node, appending one
flat definition per (leaf, mode) to `definitions`.  The JS parameter
`prefix` is called `pfx`. -/
def traverse (definitions : DefMap) (object : TokenNode) (replacements : List (Str × Str))
    (definitionsKey pfx : Str) (convertPixelToRem : Bool) (currentType : Str)
    (keys : List Str) : DefMap :=
  match object with
  | .obj val ty desc exts children =>
    let property := str "--" ++ joinSep (str "-") keys
    let propertyNameFull := (keys.map fun k => ((splitNonAlnum k).map capFirst).flatten).flatten
    let propertyName := lowerFirst propertyNameFull
    let type := jsOrOpt ty currentType
    match val with
    | some v =>
      let extensionData := getNamespaceData exts
      let defaultPush := fun (fid : Str) =>
        pushDef definitions (str "default")
          { property := property, propertyName := propertyName, figmaId := fid,
            description := desc.getD [],
            value := valueWithReplacements replacements
              (valueToCSS property v definitionsKey convertPixelToRem []),
            type := type }
      match extensionData with
      | some ed =>
        match ed.modes with
        | some ms =>
          ms.foldl (fun defs mv =>
            pushDef defs mv.1
              { property := property, propertyName := propertyName, figmaId := ed.figmaId,
                description := desc.getD [],
                value := valueWithReplacements replacements
                  (valueToCSS property mv.2 definitionsKey convertPixelToRem pfx),
                type := type }) definitions
        | none => defaultPush ed.figmaId
      | none => defaultPush (str "UNDEFINED")
    | none =>
      traverseChildren definitions children replacements definitionsKey pfx convertPixelToRem
        type keys

/-- The recursion of `traverse` over the non-`$` children of a container
node (app.mjs lines 397-410), in object order. -/
def traverseChildren (definitions : DefMap) (children : List (Str × TokenNode))
    (replacements : List (Str × Str)) (definitionsKey pfx : Str) (convertPixelToRem : Bool)
    (currentType : Str) (keys : List Str) : DefMap :=
  match children with
  | [] => definitions
  | (k, child) :: rest =>
    let defs2 :=
      if k.head? = some '$' then definitions
      else traverse definitions child replacements definitionsKey pfx convertPixelToRem
        currentType (keys ++ [k])
    traverseChildren defs2 rest replacements definitionsKey pfx convertPixelToRem
      currentType keys

end

/-- Per-collection `settings` of `COLLECTION_DATA`; the JS field `prefix`
is called `pfx`.  Absent optional fields are `none` (JS `undefined`). -/
structure CollSettings where
  pfx : Str
  convertPixelToRem : Option Bool := none
  replacements : Option (List (Str × Str)) := none
  colorSchemes : Option (List Str) := none
  colorSchemesDark : Option (List Str) := none
  colorSchemeLightRemove : Option Str := none
  colorSchemeDarkRemove : Option Str := none
deriving DecidableEq

/-- Embedding of `processCollection` (app.mjs lines 287-305), taking the collection's
sub-tree directly (the caller already checked presence). -/
def processCollection (node : TokenNode) (settings : CollSettings)
    (definitionsKey : Str) : DefMap :=
  let replacements := settings.replacements.getD []
  let convertPixelToRem := settings.convertPixelToRem.getD CONVERT_TO_REM
  let fullPfx := tokenPfx ++ settings.pfx
  traverse [] node replacements definitionsKey fullPfx convertPixelToRem []
    (if fullPfx = [] then [] else [fullPfx])

/-- JS object read `definitions[k]` where a missing mode flows into the
defaulted parameter `lines = []` of `drawCSSPropLines`. -/
def jsGetDefs (definitions : DefMap) (k : Str) : List FlatDef :=
  (lookupA k definitions).getD []

/-- Lexicographic order on `Str` (JS `<`/`>` string comparison on code
units, which agrees with character order here). -/
def strLe : Str → Str → Bool
  | [], _ => true
  | _ :: _, [] => false
  | a :: as, b :: bs => if a = b then strLe as bs else decide (a < b)

/-- Insertion step for sorting flat definitions by `property` ascending. -/
def insertSorted (d : FlatDef) : List FlatDef → List FlatDef
  | [] => [d]
  | e :: t => if strLe d.property e.property then d :: e :: t else e :: insertSorted d t

/-- The JS `lines.sort((a, b) => (a.property > b.property ? 1 : -1))`:
sorts ascending by `property` (properties are pairwise distinct in any one
mode, so the never-zero comparator still sorts). -/
def sortByProperty (l : List FlatDef) : List FlatDef := l.foldr insertSorted []

/-- Embedding of `drawCSSPropLines` (app.mjs lines 256-263): render the sorted
definitions one per line, joined by `";\n"`, with a final `";"`.  An empty
(defaulted) list yields the single string `";"`. -/
def drawCSSPropLines (lines : List FlatDef) (indent : Str) : Str :=
  joinSep (str ";\n")
    ((sortByProperty lines).map fun l => indent ++ l.property ++ str ": " ++ l.value) ++
    str ";"

/-- The light-scheme `forEach` of `fileStringCSSFromProcessedObject`
(app.mjs lines 170-182): the first scheme becomes `:root`, every later one
a `.{TOKEN_PREFIX}scheme-<key>-<stripped>` class block.  A missing
`colorSchemeLightRemove` setting is stringified to `"undefined"` by JS
`String.prototype.replace`. -/
def lightSchemeLines (definitions : DefMap) (key : Str) (lightRemove : Option Str) :
    List Str → Bool → List Str
  | [], _ => []
  | scheme :: rest, isFirst =>
    (if isFirst then
      [str "/* " ++ key ++ str ": " ++ scheme ++ str " (default) */", str ":root \x7b"]
    else
      [str "/* " ++ key ++ str ": " ++ scheme ++ str " */",
       str "." ++ tokenPfx ++ str "scheme-" ++ key ++ str "-" ++
         replaceFirstL (lightRemove.getD (str "undefined")) [] scheme ++ str " \x7b"]) ++
    [drawCSSPropLines (jsGetDefs definitions scheme) (str "  "), str "\x7d"] ++
    lightSchemeLines definitions key lightRemove rest false

/-- The dark-scheme `forEach` inside the `prefers-color-scheme` media block
(app.mjs lines 185-197), indented one level deeper. -/
def darkSchemeLines (definitions : DefMap) (key : Str) (darkRemove : Option Str) :
    List Str → Bool → List Str
  | [], _ => []
  | scheme :: rest, isFirst =>
    (if isFirst then
      [str "  /* " ++ key ++ str ": " ++ scheme ++ str " (default) */", str "  :root \x7b"]
    else
      [str "  /* " ++ key ++ str ": " ++ scheme ++ str " */",
       str "  ." ++ tokenPfx ++ str "scheme-" ++ key ++ str "-" ++
         replaceFirstL (darkRemove.getD (str "undefined")) [] scheme ++ str " \x7b"]) ++
    [drawCSSPropLines (jsGetDefs definitions scheme) (str "    "), str "  \x7d"] ++
    darkSchemeLines definitions key darkRemove rest false

/-- The mode loop of `fileStringCSSFromProcessedObject` when no
color-scheme configuration exists (app.mjs lines 200-214): modes in object
insertion order, first mode `:root`, later modes
`.{TOKEN_PREFIX}theme-<key>-<mode>` class blocks. -/
def modeThemeLines (key : Str) : DefMap → Bool → List Str
  | [], _ => []
  | (k, dl) :: rest, isFirst =>
    (if isFirst then
      [str "/* " ++ key ++ str ": " ++ k ++ str " (default) */", str ":root \x7b"]
    else
      [str "/* " ++ key ++ str ": " ++ k ++ str " */",
       str "." ++ tokenPfx ++ str "theme-" ++ key ++ str "-" ++ k ++ str " \x7b"]) ++
    [drawCSSPropLines dl (str "  "), str "\x7d"] ++
    modeThemeLines key rest false

/-- Embedding of `fileStringCSSFromProcessedObject` (app.mjs lines 165-216). -/
def fileStringCSSFromProcessedObject (definitions : DefMap) (settings : CollSettings)
    (key : Str) : List Str :=
  match settings.colorSchemes with
  | some schemes =>
    lightSchemeLines definitions key settings.colorSchemeLightRemove schemes true ++
    (match settings.colorSchemesDark with
     | some darks =>
       [str "@media (prefers-color-scheme: dark) \x7b"] ++
       darkSchemeLines definitions key settings.colorSchemeDarkRemove darks true ++
       [str "\x7d"]
     | none => [])
  | none => modeThemeLines key definitions true

/-- The default settings `ensureCollectionSettingsExist` adds for a
collection found in the document but missing from `COLLECTION_DATA`
(app.mjs lines 464-470). -/
def fallbackSettings (normalizedKey : Str) : CollSettings :=
  { pfx := normalizedKey.map (fun c => if c = '_' then '-' else c),
    convertPixelToRem := some true }

/-- The `console.warn` text of `ensureCollectionSettingsExist`. -/
def addedWarn (normalizedKey : Str) : Str :=
  str "Added default token collection settings for \"" ++ normalizedKey ++
    str "\". Consider configuring it explicitly if special handling is needed."

/-- The `console.warn` text of the skip branch of `processTokenJSON`. -/
def skipWarn (definitionsKey : Str) : Str :=
  str "Skipping token collection \"" ++ definitionsKey ++
    str "\" - not found in tokens.json"

/-- One step of `ensureCollectionSettingsExist` (app.mjs lines 456-475)
for one document key: if it starts with the collection marker and is not
yet configured, append default settings and a warning. -/
def ensureStep (acc : List (Str × CollSettings) × List Str) (dk : Str) :
    List (Str × CollSettings) × List Str :=
  if isPrefixL KEY_PREFIX_COLLECTION dk then
    let normalizedKey := dk.drop KEY_PREFIX_COLLECTION.length
    if normalizedKey = [] then acc
    else if (lookupA normalizedKey acc.1).isSome then acc
    else (acc.1 ++ [(normalizedKey, fallbackSettings normalizedKey)],
          acc.2 ++ [addedWarn normalizedKey])
  else acc

/-- Embedding of `ensureCollectionSettingsExist` (app.mjs lines 456-475): returns the
grown configuration and the warnings, in order. -/
def ensureCollectionSettingsExist (config : List (Str × CollSettings))
    (dataKeys : List Str) : List (Str × CollSettings) × List Str :=
  dataKeys.foldl ensureStep (config, [])

/-- The generated-file header comment lines (app.mjs lines 153-157). -/
def fileHeader : List Str :=
  [str "/*", str " * This file is automatically generated by scripts/tokens/app.mjs!",
   str " */"]

/-- The result of `processTokenJSON`: the processed collections in order
(key, settings, definitions), the warnings printed, and the theme CSS
lines. -/
structure ProcessResult where
  processed : List (Str × CollSettings × DefMap)
  warnings : List Str
  themeCSS : List Str

/-- One step of the per-collection loop of `processTokenJSON`: skip with a
warning when the key is absent from the document, else process. -/
def processStep (data : List (Str × TokenNode))
    (acc : List (Str × CollSettings × DefMap) × List Str)
    (kv : Str × CollSettings) : List (Str × CollSettings × DefMap) × List Str :=
  let definitionsKey := KEY_PREFIX_COLLECTION ++ kv.1
  match lookupA definitionsKey data with
  | none => (acc.1, acc.2 ++ [skipWarn definitionsKey])
  | some node =>
    (acc.1 ++ [(kv.1, kv.2, processCollection node kv.2 definitionsKey)], acc.2)

/-- The processed entries the loop of `processTokenJSON` produces for a
given configuration list (one entry per configured key present in the
document, in configuration order). -/
def processedOf (data : List (Str × TokenNode)) (cfg : List (Str × CollSettings)) :
    List (Str × CollSettings × DefMap) :=
  cfg.filterMap fun kv =>
    match lookupA (KEY_PREFIX_COLLECTION ++ kv.1) data with
    | none => none
    | some node =>
      some (kv.1, kv.2, processCollection node kv.2 (KEY_PREFIX_COLLECTION ++ kv.1))

/-- The skip warnings the loop of `processTokenJSON` produces (one per
configured key absent from the document, in configuration order). -/
def skipWarnsOf (data : List (Str × TokenNode)) (cfg : List (Str × CollSettings)) :
    List Str :=
  cfg.filterMap fun kv =>
    match lookupA (KEY_PREFIX_COLLECTION ++ kv.1) data with
    | none => some (skipWarn (KEY_PREFIX_COLLECTION ++ kv.1))
    | some _ => none

/-- Embedding of `processTokenJSON` (app.mjs lines 139-162 and 248): grow the
configuration from the document, then per configured collection either
skip with a warning (key absent from the document) or run
`processCollection`; finally render the header plus each processed
collection's CSS. -/
def processTokenJSON (config : List (Str × CollSettings))
    (data : List (Str × TokenNode)) : ProcessResult :=
  let ec := ensureCollectionSettingsExist config (data.map (·.1))
  let pr := ec.1.foldl (processStep data) ([], ec.2)
  { processed := pr.1, warnings := pr.2,
    themeCSS := fileHeader ++
      pr.1.flatMap fun p => fileStringCSSFromProcessedObject p.2.2 p.2.1 p.1 }

/-- JS object property write `into[k] = v`: overwrite in place if the key
exists, else append. -/
def objSet : List (Str × FlatDef) → Str → FlatDef → List (Str × FlatDef)
  | [], k, v => [(k, v)]
  | (a, b) :: t, k, v =>
    if a = k then (a, v) :: t else (a, b) :: objSet t k v

/-- All flat definitions of all processed collections and modes, in the
order `initialize` flattens them (app.mjs lines 109-114). -/
def allFlatDefs (processed : List (Str × CollSettings × DefMap)) : List FlatDef :=
  processed.flatMap fun p => (p.2.2.map (·.2)).flatten

/-- The reduce building the variable lookup table keyed by `figmaId`
(app.mjs lines 115-118). -/
def buildLookupFromDefs (defs : List FlatDef) : List (Str × FlatDef) :=
  defs.foldl (fun into item => objSet into item.figmaId item) []

/-- The `variableLookups` object of `initialize` (app.mjs lines 109-118). -/
def buildVariableLookups (processed : List (Str × CollSettings × DefMap)) :
    List (Str × FlatDef) :=
  buildLookupFromDefs (allFlatDefs processed)

/-- JS `String.prototype.trim` for the space-separated descriptors handled
here. -/
def trimL (s : Str) : Str :=
  ((s.dropWhile (· = ' ')).reverse.dropWhile (· = ' ')).reverse

/-- JS `replace(/ +/g, " ")`: collapse every run of spaces to one space. -/
def collapseSpaces : Str → Str
  | [] => []
  | [c] => [c]
  | a :: b :: t =>
    if a = ' ' ∧ b = ' ' then collapseSpaces (b :: t) else a :: collapseSpaces (b :: t)

/-- JS replace of the global regex "one or more hyphens" with a single
space: every maximal run of hyphens becomes one space. -/
def hyphenRunsToSpace : Str → Str
  | [] => []
  | ['-'] => [' ']
  | [c] => [c]
  | a :: b :: t =>
    if a = '-' then
      if b = '-' then hyphenRunsToSpace (b :: t) else ' ' :: hyphenRunsToSpace (b :: t)
    else a :: hyphenRunsToSpace (b :: t)

/-- JS `normalizedKey.match(/\d{3}/)?.[0]`: the first run of three
consecutive digits, if any. -/
def find3Digit : Str → Option Str
  | a :: b :: c :: t =>
    if a.isDigit ∧ b.isDigit ∧ c.isDigit then some [a, b, c]
    else find3Digit (b :: c :: t)
  | _ => none

/-- The fixed name → numeric-weight table of `parseFontStyle`
(app.mjs lines 701-717), in object-key order. -/
def weightMap : List (Str × Str) :=
  [(str "thin", str "100"), (str "extra light", str "200"), (str "ultralight", str "200"),
   (str "light", str "300"), (str "book", str "350"), (str "normal", str "400"),
   (str "regular", str "400"), (str "roman", str "400"), (str "medium", str "500"),
   (str "semi bold", str "600"), (str "demi bold", str "600"), (str "bold", str "700"),
   (str "extra bold", str "800"), (str "black", str "900"), (str "heavy", str "900")]

/-- The result of `parseFontStyle`. -/
structure FontStyleParts where
  fontStyle : Str
  fontWeight : Str
deriving DecidableEq

/-- Embedding of `parseFontStyle` (app.mjs lines 694-737): split off `italic`, then
resolve the weight by exact table lookup, substring fuzzy match (first
table key contained in the descriptor), first embedded 3-digit run, and
finally `"400"`.  A fuzzy-matched key always maps to a non-empty value, so
the JS `(fuzzyKey && weightMap[fuzzyKey]) || ...` chain reduces to that
value. -/
def parseFontStyle (styleName : Str) : FontStyleParts :=
  if styleName = [] then { fontStyle := str "normal", fontWeight := str "400" }
  else
    let lower := toLowerL styleName
    let isItalic := occurs (str "italic") lower
    let weightKey := trimL (collapseSpaces (replaceFirstL (str "italic") [] lower))
    let normalizedKey := trimL (hyphenRunsToSpace weightKey)
    let fontWeight :=
      match lookupA normalizedKey weightMap with
      | some w => w
      | none =>
        if normalizedKey ≠ [] then
          match (weightMap.map (·.1)).find? (fun k => occurs k normalizedKey) with
          | some fuzzyKey => (lookupA fuzzyKey weightMap).getD (str "400")
          | none => (find3Digit normalizedKey).getD (str "400")
        else str "400"
    { fontStyle := if isItalic then str "italic" else str "normal",
      fontWeight := fontWeight }

/-- The result of `deriveFontParts`. -/
structure FontParts where
  fontStyle : Str
  fontWeight : Str
  fontFamily : Str
  fontSizeValue : Str
deriving DecidableEq

/-- Embedding of `deriveFontParts` (app.mjs lines 663-692).  `fontName` is flattened
into its optional `family`/`style` members; numeric font sizes are
modelled as integers in their JS string form. -/
def deriveFontParts (family0 style0 : Option Str) (fontSize : Option Int)
    (fbFamily fbWeight fbStyle : Option Str) (fbSize : Option Int) : FontParts :=
  let family := family0.getD []
  let resolvedFamily := jsOrL family (jsOrOpt fbFamily [])
  let styleDescriptor :=
    jsOrL (style0.getD [])
      (trimL (joinSep (str " ")
        (([fbStyle, fbWeight].filterMap id).filterMap fun v =>
          if trimL v = [] then none else some (trimL v))))
  let parsedStyle := parseFontStyle styleDescriptor
  let resolvedFontSize := match fontSize with
    | some n => some n
    | none => fbSize
  { fontStyle := parsedStyle.fontStyle,
    fontWeight := parsedStyle.fontWeight,
    fontFamily :=
      if resolvedFamily = [] then str "sans-serif"
      else '"' :: resolvedFamily ++ str "\", sans-serif",
    fontSizeValue := match resolvedFontSize with
      | some n => decimalOfScaled n 0 ++ str "px"
      | none => str "16px" }

/-- A value handed to `valueFromPossibleVariable`: either a bound-variable
reference object `\x7b id \x7d` or a primitive (string / stringified
number). -/
inductive BoundValue where
  | ref (id : Str)
  | prim (s : Str)
deriving DecidableEq

/-- The `^[1-9]00$` test of `valueFromPossibleVariable`. -/
def weightLike (s : Str) : Bool :=
  match s with
  | [a, b, c] => ('1' ≤ a ∧ a ≤ '9') ∧ b = '0' ∧ c = '0'
  | _ => false

/-- Embedding of `valueFromPossibleVariable` (app.mjs lines 592-609), taking the
enclosing `variablesLookup` table explicitly.  Reference objects resolve
through the table by id (falling back to the literal); bare
`[1-9]00` strings search the table's values for an equal resolved value;
an empty primitive is falsy and falls back. -/
def valueFromPossibleVariable (variablesLookup : List (Str × FlatDef))
    (item : BoundValue) (fallback : Str) : Str :=
  match item with
  | .ref id =>
    match lookupA id variablesLookup with
    | some vdef => str "var(" ++ vdef.property ++ str ")"
    | none => fallback
  | .prim stringItem =>
    if weightLike stringItem then
      match (variablesLookup.map (·.2)).find? (fun v => v.value = stringItem) with
      | some vdef => str "var(" ++ vdef.property ++ str ")"
      | none => stringItem
    else if stringItem = [] then fallback else stringItem

/-- The TEXT-style name sanitization of `processStyleJSON` (app.mjs lines
538-541): strip leading non-alphanumerics, collapse the remaining
non-alphanumeric runs to hyphens, lowercase. -/
def runsToHyphen : Str → Str
  | [] => []
  | [c] => if c.isAlphanum then [c] else ['-']
  | a :: b :: t =>
    if a.isAlphanum then a :: runsToHyphen (b :: t)
    else if b.isAlphanum then '-' :: runsToHyphen (b :: t)
    else runsToHyphen (b :: t)

/-- Embedding of the chained name sanitization replaces and lowercase of a TEXT style name. -/
def textNameSanitize (name : Str) : Str :=
  toLowerL (runsToHyphen (name.dropWhile fun c => ¬ c.isAlphanum))

/-- The optional bound-variable references of one TEXT style record. -/
structure TextBoundVars where
  fontStyle : Option BoundValue := none
  fontWeight : Option BoundValue := none
  fontSize : Option BoundValue := none
  fontFamily : Option BoundValue := none
deriving DecidableEq

/-- One TEXT style record as destructured by `processStyleJSON`
(app.mjs lines 488-497). -/
structure TextStyle where
  name : Str
  fontSize : Option Int := none
  fontFamily : Option Str := none
  fontWeight : Option Str := none
  fontStyle : Option Str := none
  fontNameFamily : Option Str := none
  fontNameStyle : Option Str := none
  boundVariables : TextBoundVars := {}
deriving DecidableEq

/-- The custom-property line `processStyleJSON` emits for one TEXT record
(app.mjs lines 499-542): each of style/weight/size/family resolves through
`valueFromPossibleVariable` when a bound reference exists, else uses the
derived literal. -/
def textStyleLine (variablesLookup : List (Str × FlatDef)) (ts : TextStyle) : Str :=
  let fp := deriveFontParts ts.fontNameFamily ts.fontNameStyle ts.fontSize
    ts.fontFamily ts.fontWeight (some (ts.fontStyle.getD (str "normal"))) ts.fontSize
  let comp := fun (b : Option BoundValue) (lit : Str) =>
    match b with
    | some item => valueFromPossibleVariable variablesLookup item lit
    | none => lit
  let css := joinSep (str " ")
    [comp ts.boundVariables.fontStyle fp.fontStyle,
     comp ts.boundVariables.fontWeight fp.fontWeight,
     comp ts.boundVariables.fontSize fp.fontSizeValue,
     comp ts.boundVariables.fontFamily fp.fontFamily]
  str "--" ++ tokenPfx ++ str "font-" ++ textNameSanitize ts.name ++ str ": " ++ css ++ str ";"

/-- Concrete definition used by the C7 counterexample: a token whose
resolved value is the bare three-digit string `"550"`. -/
def weight550Def : FlatDef :=
  { property := str "--wds-typography-weight-55", propertyName := str "weight55",
    figmaId := str "VariableID:550", description := [], value := str "550",
    type := str "number" }

/-- Concrete definition with resolved value `"700"` for the C7 witness. -/
def weight700Def : FlatDef :=
  { property := str "--wds-typography-weight-bold", propertyName := str "weightBold",
    figmaId := str "VariableID:700", description := [], value := str "700",
    type := str "number" }

/-- Concrete TEXT style record (with a dangling bound fontWeight
reference) used by the C8 witness. -/
def exampleTextStyle : TextStyle :=
  { name := str "Heading/Large", fontSize := some 24,
    fontNameFamily := some (str "Inter"), fontNameStyle := some (str "Semi Bold"),
    boundVariables := { fontWeight := some (.ref (str "VariableID:missing")) } }

/-- Characters that pass every string transformation of the alias
round-trip unchanged: fixed by `toLowerCase`, not a path separator, not an
alias delimiter, and not the reserved `$` marker.  (Ordinary lowercase
token-path characters such as letters, digits and hyphens qualify.) -/
def cssOk (c : Char) : Bool :=
  c.toLower == c && !(c == '.') && !(c == ' ') && !(c == '{') && !(c == '}') && !(c == '$')

/-- A string all of whose characters are `cssOk`. -/
def cssClean (s : Str) : Bool := s.all cssOk

/-- A chain of single-child container nodes ending in `t` (the token tree
path `segs` down to a leaf). -/
def chainNode : List Str → TokenNode → TokenNode
  | [], t => t
  | x :: u, t => .obj none none none none [(x, chainNode u t)]

/-- The raw alias text `{<definitionsKey>.<dotted path>}` referencing a
token of the same collection. -/
def aliasValue (definitionsKey : Str) (segs : List Str) : Str :=
  '{' :: (definitionsKey ++ '.' :: (joinSep (str ".") segs ++ ['}']))

/-- A plain leaf token (no `$type`, `$description` or `$extensions`). -/
def plainLeaf (v : Str) : TokenNode := .obj (some v) none none none []

/-- A leaf token carrying per-mode extension data with a single mode `m`
whose raw value is `v`. -/
def modeLeaf (v fid m : Str) : TokenNode :=
  .obj (some v) none none
    (some [(str "com.figma.wds", { figmaId := fid, modes := some [(m, v)] })]) []

/-- Collection tree for the alias round-trip: a referenced token at path
`s0 :: u` and a sibling alias leaf with per-mode extension data whose raw
value references it. -/
def aliasTestTree (s0 : Str) (u : List Str) (refVal aliasKey fid m definitionsKey : Str) :
    TokenNode :=
  .obj none none none none
    [(s0, chainNode u (plainLeaf refVal)),
     (aliasKey, modeLeaf (aliasValue definitionsKey (s0 :: u)) fid m)]

/-- Collection tree with a single alias leaf carrying no extension data
(processed under the implicit `"default"` mode). -/
def aliasTestTreeDefault (aliasKey definitionsKey : Str) (segs : List Str) : TokenNode :=
  .obj none none none none [(aliasKey, plainLeaf (aliasValue definitionsKey segs))]

/-- Settings used by the alias round-trip theorems: a prefix, a unit
policy, and an empty replacement table. -/
def aliasTestSettings (p' : Str) (rem : Bool) : CollSettings :=
  { pfx := p', convertPixelToRem := some rem, replacements := some [] }

/-- Concrete collection tree for the C1 counterexample: a primitive token
at `blue.500` and a sibling default-mode alias leaf referencing it. -/
def c1Tree : TokenNode :=
  .obj none none none none
    [(str "blue", chainNode [str "500"] (plainLeaf (str "#00f"))),
     (str "accent", plainLeaf (aliasValue (str "@color") [str "blue", str "500"]))]

/-! ## Helper lemmas -/

theorem isNumericStr_head_ne_brace {v : Str} (h : isNumericStr v = true) :
    v.head? ≠ some '{' := by
  match v with
  | [] => simp
  | '-' :: t => simp
  | c :: t =>
    intro hc
    simp at hc
    subst hc
    simp [isNumericStr, List.takeWhile] at h

theorem drawCSSPropLines_nil (indent : Str) :
    drawCSSPropLines [] indent = str ";" := by
  simp [drawCSSPropLines, sortByProperty, joinSep]

/-! ## C3: rem conversion -/

/-- C3 (corrected): the claim as frozen says a purely numeric raw value is
divided by 16 when rem conversion is on, "likewise for decimal values such
as 24.5".  The code applies `parseInt` first, so `"24.5"` is truncated to
`24` and emitted as `"1.5rem"`, not `"1.53125rem"`. -/
theorem C3_counterexample :
    valueToCSS (str "--wds-size-x") (str "24.5") (str "@size") true (str "wds-size")
      = .strv (str "1.5rem")
    ∧ str "1.5rem" ≠ str "1.53125rem" := by
  decide

/-- C3 (amended): for a purely numeric raw value on a property path that
contains neither "weight" nor "ratio-", `valueToCSS` with rem conversion
enabled returns `parseInt(value) / 16` followed by `"rem"` (the fractional
part of the raw value is discarded by `parseInt`, so `"16"` gives
`"1rem"`, `"24"` gives `"1.5rem"`, and `"24.5"` also gives `"1.5rem"`);
with rem conversion disabled it returns the raw value followed by
`"px"`. -/
theorem C3_rem_conversion (property value definitionsKey pfx : Str)
    (hv : isNumericStr value = true)
    (hw : occurs (str "weight") property = false)
    (hr : occurs (str "ratio-") property = false) :
    valueToCSS property value definitionsKey true pfx
      = .strv (formatRem (parseIntLeading value))
    ∧ valueToCSS property value definitionsKey false pfx
      = .strv (value ++ str "px") := by
  have hhead : ¬ value.head? = some '{' := isNumericStr_head_ne_brace hv
  constructor <;> simp [valueToCSS, hv, hw, hr, hhead]

/-- Witness for `C3_rem_conversion` at the inputs `"16"`, `"24"`, `"24.5"`. -/
theorem C3_rem_conversion_witness :
    (isNumericStr (str "24.5") = true
      ∧ occurs (str "weight") (str "--wds-size-x") = false
      ∧ occurs (str "ratio-") (str "--wds-size-x") = false)
    ∧ valueToCSS (str "--wds-size-x") (str "24.5") (str "@size") true (str "wds-size")
        = .strv (formatRem (parseIntLeading (str "24.5")))
    ∧ valueToCSS (str "--wds-size-x") (str "16") (str "@size") true (str "wds-size")
        = .strv (str "1rem")
    ∧ valueToCSS (str "--wds-size-x") (str "24") (str "@size") true (str "wds-size")
        = .strv (str "1.5rem")
    ∧ valueToCSS (str "--wds-size-x") (str "24.5") (str "@size") false (str "wds-size")
        = .strv (str "24.5" ++ str "px") :=
  ⟨⟨by decide, by decide, by decide⟩,
   (C3_rem_conversion (str "--wds-size-x") (str "24.5") (str "@size") (str "wds-size")
      (by decide) (by decide) (by decide)).1,
   by decide, by decide,
   (C3_rem_conversion (str "--wds-size-x") (str "24.5") (str "@size") (str "wds-size")
      (by decide) (by decide) (by decide)).2⟩

/-! ## C6: font style/weight derivation -/

/-- C6 (confirmed): `parseFontStyle` splits off the `italic` keyword to set
`fontStyle` (first conjunct, for every descriptor), and resolves
`fontWeight` through exact table lookup (`"Medium"`), substring fuzzy
match (`"Semibold"` contains the key `"bold"`), an embedded 3-digit number
(`"W550 Italic"`), and finally `"400"` (`"Fancy"`); in particular
`"Semi Bold Italic"` yields `fontStyle "italic"` and `fontWeight "600"`. -/
theorem C6_font_style_weight :
    (∀ s : Str, (parseFontStyle s).fontStyle
        = (if occurs (str "italic") (toLowerL s) then str "italic" else str "normal"))
    ∧ parseFontStyle (str "Semi Bold Italic")
        = { fontStyle := str "italic", fontWeight := str "600" }
    ∧ parseFontStyle (str "Medium")
        = { fontStyle := str "normal", fontWeight := str "500" }
    ∧ parseFontStyle (str "Semibold")
        = { fontStyle := str "normal", fontWeight := str "700" }
    ∧ parseFontStyle (str "W550 Italic")
        = { fontStyle := str "italic", fontWeight := str "550" }
    ∧ parseFontStyle (str "Fancy")
        = { fontStyle := str "normal", fontWeight := str "400" } := by
  refine ⟨fun s => ?_, by decide, by decide, by decide, by decide, by decide⟩
  by_cases hs : s = []
  · subst hs; decide
  · simp [parseFontStyle, hs]

/-! ## C7: three-digit weight substitution -/

/-- C7 (corrected): the claim as frozen covers "every bound value that is a
bare 3-digit string", but the code's test is the regex `^[1-9]00$`, so a
bare 3-digit value like `"550"` is returned literally even though a
definition with exactly that resolved value is present in the lookup
table. -/
theorem C7_counterexample :
    valueFromPossibleVariable [(str "VariableID:550", weight550Def)]
        (.prim (str "550")) [] = str "550"
    ∧ (([(str "VariableID:550", weight550Def)].map (fun p => p.2)).find?
        (fun v => v.value = str "550") = some weight550Def)
    ∧ str "550" ≠ str "var(" ++ weight550Def.property ++ str ")" := by
  decide

/-- C7 (amended): for every bound value that is a bare string of the form
`X00` with `X` in `1..9` (the regex `^[1-9]00$`, e.g. `"700"`),
`valueFromPossibleVariable` searches the lookup table's values for a
definition whose resolved value equals that string and, if one is found,
returns its `var(--x)` reference instead of the literal; otherwise it
returns the literal string. -/
theorem C7_weight_substitution (variablesLookup : List (Str × FlatDef))
    (s fallback : Str) (hs : weightLike s = true) :
    (∀ d : FlatDef,
      (variablesLookup.map (fun p => p.2)).find? (fun v => v.value = s) = some d →
        valueFromPossibleVariable variablesLookup (.prim s) fallback
          = str "var(" ++ d.property ++ str ")")
    ∧ ((variablesLookup.map (fun p => p.2)).find? (fun v => v.value = s) = none →
        valueFromPossibleVariable variablesLookup (.prim s) fallback = s) := by
  constructor
  · intro d hd
    simp [valueFromPossibleVariable, hs, hd]
  · intro hd
    simp [valueFromPossibleVariable, hs, hd]

/-- Witness for `C7_weight_substitution`: `"700"` found in a one-entry
table resolves to the definition's variable reference. -/
theorem C7_weight_substitution_witness :
    weightLike (str "700") = true
    ∧ (([(str "VariableID:700", weight700Def)].map (fun p => p.2)).find?
        (fun v => v.value = str "700") = some weight700Def)
    ∧ valueFromPossibleVariable [(str "VariableID:700", weight700Def)]
        (.prim (str "700")) [] = str "var(" ++ weight700Def.property ++ str ")" :=
  ⟨by decide, by decide,
   (C7_weight_substitution [(str "VariableID:700", weight700Def)] (str "700") []
      (by decide)).1 weight700Def (by decide)⟩

/-! ## C8: unresolvable bound-variable fallback -/

/-- C8 (confirmed): a bound-variable reference whose id is absent from the
variable lookup table resolves to the derived literal fallback, and the
emitted TEXT-style CSS line is identical to the line produced with no
bound reference at all (the derived literal is used).  All embedded
functions are total, so no exception can be raised. -/
theorem C8_unresolved_fallback (variablesLookup : List (Str × FlatDef))
    (id fallback : Str) (ts : TextStyle)
    (h : lookupA id variablesLookup = none)
    (hts : ts.boundVariables.fontWeight = some (.ref id)) :
    valueFromPossibleVariable variablesLookup (.ref id) fallback = fallback
    ∧ textStyleLine variablesLookup ts
        = textStyleLine variablesLookup
            { ts with boundVariables := { ts.boundVariables with fontWeight := none } } := by
  constructor
  · simp [valueFromPossibleVariable, h]
  · simp [textStyleLine, hts, valueFromPossibleVariable, h]

/-- Witness for `C8_unresolved_fallback` at a concrete style record. -/
theorem C8_unresolved_fallback_witness :
    (lookupA (str "VariableID:missing") ([] : List (Str × FlatDef)) = none
      ∧ (exampleTextStyle.boundVariables.fontWeight
          = some (.ref (str "VariableID:missing"))))
    ∧ valueFromPossibleVariable [] (.ref (str "VariableID:missing")) (str "600")
        = str "600"
    ∧ textStyleLine [] exampleTextStyle
        = textStyleLine []
            { exampleTextStyle with
              boundVariables :=
                { exampleTextStyle.boundVariables with fontWeight := none } } :=
  ⟨⟨by decide, by decide⟩,
   (C8_unresolved_fallback [] (str "VariableID:missing") (str "600") exampleTextStyle
      (by decide) (by decide)).1,
   (C8_unresolved_fallback [] (str "VariableID:missing") (str "600") exampleTextStyle
      (by decide) (by decide)).2⟩

/-! ## C10: emitter totality over missing modes -/

/-- C10 (confirmed): when a configured scheme name has no definitions list,
the JS `undefined` flows into the defaulted `lines = []` parameter of
`drawCSSPropLines`, which returns the single string `";"`; the emitted
block for that scheme is exactly the comment, the opener, the lone
semicolon line and the closer, and nothing raises (the embedding is
total). -/
theorem C10_missing_mode (definitions : DefMap) (scheme key p0 : Str)
    (rem : Option Bool) (reps : Option (List (Str × Str))) (lr : Option Str)
    (h : lookupA scheme definitions = none) :
    drawCSSPropLines (jsGetDefs definitions scheme) (str "  ") = str ";"
    ∧ fileStringCSSFromProcessedObject definitions
        { pfx := p0, convertPixelToRem := rem, replacements := reps,
          colorSchemes := some [scheme], colorSchemeLightRemove := lr } key
      = [str "/* " ++ key ++ str ": " ++ scheme ++ str " (default) */", str ":root \x7b",
         str ";", str "\x7d"] := by
  have hempty : jsGetDefs definitions scheme = [] := by simp [jsGetDefs, h]
  constructor
  · rw [hempty]; exact drawCSSPropLines_nil _
  · simp [fileStringCSSFromProcessedObject, lightSchemeLines, hempty,
      drawCSSPropLines_nil]

/-- Witness for `C10_missing_mode`: a definitions map that lacks the
configured scheme `"wds_light"`. -/
theorem C10_missing_mode_witness :
    lookupA (str "wds_light") ([(str "other", [weight700Def])] : DefMap) = none
    ∧ drawCSSPropLines (jsGetDefs [(str "other", [weight700Def])] (str "wds_light"))
        (str "  ") = str ";"
    ∧ fileStringCSSFromProcessedObject [(str "other", [weight700Def])]
        { pfx := str "color", convertPixelToRem := none, replacements := none,
          colorSchemes := some [str "wds_light"],
          colorSchemeLightRemove := some (str "_light") } (str "color")
      = [str "/* " ++ str "color" ++ str ": " ++ str "wds_light" ++ str " (default) */",
         str ":root \x7b", str ";", str "\x7d"] :=
  ⟨by decide,
   (C10_missing_mode [(str "other", [weight700Def])] (str "wds_light") (str "color")
      (str "color") none none (some (str "_light")) (by decide)).1,
   (C10_missing_mode [(str "other", [weight700Def])] (str "wds_light") (str "color")
      (str "color") none none (some (str "_light")) (by decide)).2⟩

/-! ## C4: scheme scoping -/

/-- C4 (corrected): with `colorSchemes := ["a_light","b_light"]` (and no
dark list), the emitted CSS is exactly one `:root` block holding the
`a_light` definitions followed by one class-scoped block holding the
`b_light` definitions, in that order — but the class is named
`.{TOKEN_PREFIX}scheme-<collection>-b`, not
`.{TOKEN_PREFIX}theme-<collection>-b` as the claim states (the `theme-`
form is only used by the no-color-scheme mode loop). -/
theorem C4_scheme_scoping (definitions : DefMap) (key p0 : Str)
    (rem : Option Bool) (reps : Option (List (Str × Str))) :
    fileStringCSSFromProcessedObject definitions
      { pfx := p0, convertPixelToRem := rem, replacements := reps,
        colorSchemes := some [str "a_light", str "b_light"],
        colorSchemeLightRemove := some (str "_light") } key
    = [str "/* " ++ key ++ str ": " ++ str "a_light" ++ str " (default) */",
       str ":root \x7b",
       drawCSSPropLines (jsGetDefs definitions (str "a_light")) (str "  "),
       str "\x7d",
       str "/* " ++ key ++ str ": " ++ str "b_light" ++ str " */",
       str "." ++ tokenPfx ++ str "scheme-" ++ key ++ str "-" ++ str "b" ++ str " \x7b",
       drawCSSPropLines (jsGetDefs definitions (str "b_light")) (str "  "),
       str "\x7d"] := by
  have hb : replaceFirstL (str "_light") [] (str "b_light") = str "b" := by decide
  simp [fileStringCSSFromProcessedObject, lightSchemeLines, hb]

/-- C4 counterexample for the frozen claim's block name: with collection
key `"c"`, no emitted line mentions `.wds-theme-c-b`; the class block is
`.wds-scheme-c-b`. -/
theorem C4_counterexample :
    ((fileStringCSSFromProcessedObject []
        { pfx := str "color", colorSchemes := some [str "a_light", str "b_light"],
          colorSchemeLightRemove := some (str "_light") } (str "c")).any
      (fun l => occurs (str ".wds-scheme-c-b") l)) = true
    ∧ ((fileStringCSSFromProcessedObject []
        { pfx := str "color", colorSchemes := some [str "a_light", str "b_light"],
          colorSchemeLightRemove := some (str "_light") } (str "c")).any
      (fun l => occurs (str ".wds-theme-c-b") l)) = false := by
  decide

/-! ## C5: theme block naming without color-scheme config -/

theorem modeThemeLines_false (key : Str) (defs : DefMap) :
    modeThemeLines key defs false
      = defs.flatMap (fun kv =>
          [str "/* " ++ key ++ str ": " ++ kv.1 ++ str " */",
           str "." ++ tokenPfx ++ str "theme-" ++ key ++ str "-" ++ kv.1 ++ str " \x7b",
           drawCSSPropLines kv.2 (str "  "), str "\x7d"]) := by
  induction defs with
  | nil => simp [modeThemeLines]
  | cons kv rest ih => simp [modeThemeLines, ih]

/-- C5 (corrected): without a `colorSchemes` setting, modes are iterated in
object-insertion order, the first becomes the `:root` block, and each
subsequent mode becomes a class-scoped block — but the class is named
`.{TOKEN_PREFIX}theme-<collectionKey>-<mode>` (i.e. `.wds-theme-…`), not
`theme-scope-<collectionKey>-<mode>` as the claim states. -/
theorem C5_theme_blocks (key m : Str) (dl : List FlatDef) (rest : DefMap)
    (p0 : Str) (rem : Option Bool) (reps : Option (List (Str × Str))) :
    fileStringCSSFromProcessedObject ((m, dl) :: rest)
      { pfx := p0, convertPixelToRem := rem, replacements := reps } key
    = [str "/* " ++ key ++ str ": " ++ m ++ str " (default) */", str ":root \x7b",
       drawCSSPropLines dl (str "  "), str "\x7d"] ++
      rest.flatMap (fun kv =>
        [str "/* " ++ key ++ str ": " ++ kv.1 ++ str " */",
         str "." ++ tokenPfx ++ str "theme-" ++ key ++ str "-" ++ kv.1 ++ str " \x7b",
         drawCSSPropLines kv.2 (str "  "), str "\x7d"]) := by
  simp [fileStringCSSFromProcessedObject, modeThemeLines, modeThemeLines_false]

/-- C5 counterexample for the frozen claim's class name: with collection
key `"c"` and modes `light` then `dark`, the second block is
`.wds-theme-c-dark`; no emitted line contains `theme-scope`. -/
theorem C5_counterexample :
    ((fileStringCSSFromProcessedObject [(str "light", []), (str "dark", [])]
        { pfx := str "color" } (str "c")).any
      (fun l => occurs (str ".wds-theme-c-dark") l)) = true
    ∧ ((fileStringCSSFromProcessedObject [(str "light", []), (str "dark", [])]
        { pfx := str "color" } (str "c")).any
      (fun l => occurs (str "theme-scope") l)) = false := by
  decide

/-! ## C9: UNDEFINED figmaId collision -/

theorem lookupA_none_of_not_any {α : Type} {k : Str} {m : List (Str × α)}
    (h : m.any (fun p => p.1 = k) = false) : lookupA k m = none := by
  induction m with
  | nil => rfl
  | cons p t ih =>
    simp only [List.any_cons, Bool.or_eq_false_iff] at h
    simp only [lookupA]
    rw [if_neg (by simpa using h.1)]
    exact ih h.2

theorem lookupA_append_of_none {α : Type} {k : Str} {m m₂ : List (Str × α)}
    (h : lookupA k m = none) : lookupA k (m ++ m₂) = lookupA k m₂ := by
  induction m with
  | nil => simp
  | cons p t ih =>
    simp only [lookupA] at h ⊢
    by_cases hp : p.1 = k
    · rw [if_pos hp] at h; cases h
    · cases p
      rw [if_neg hp] at h ⊢
      exact ih h

theorem lookupA_objSet_self (m : List (Str × FlatDef)) (k : Str) (v : FlatDef) :
    lookupA k (objSet m k v) = some v := by
  induction m with
  | nil => simp [objSet, lookupA]
  | cons p t ih =>
    obtain ⟨a, b⟩ := p
    by_cases hp : a = k
    · simp [objSet, hp, lookupA]
    · simp only [objSet]
      rw [if_neg hp]
      simp only [lookupA]
      rw [if_neg hp]
      exact ih

theorem lookupA_objSet_ne (m : List (Str × FlatDef)) (k k' : Str) (v : FlatDef)
    (h : k' ≠ k) : lookupA k' (objSet m k v) = lookupA k' m := by
  induction m with
  | nil =>
    simp only [objSet, lookupA]
    rw [if_neg (fun e => h e.symm)]
  | cons p t ih =>
    obtain ⟨a, b⟩ := p
    by_cases hp : a = k
    · simp only [objSet]
      rw [if_pos hp]
      simp only [lookupA]
      rw [if_neg (hp ▸ fun e => h e.symm), if_neg (hp ▸ fun e => h e.symm)]
    · simp only [objSet]
      rw [if_neg hp]
      simp only [lookupA]
      by_cases ha : a = k'
      · rw [if_pos ha, if_pos ha]
      · rw [if_neg ha, if_neg ha]
        exact ih

theorem lookupA_pushDef_self (defs : DefMap) (mode : Str) (d : FlatDef) :
    lookupA mode (pushDef defs mode d) = some ((lookupA mode defs).getD [] ++ [d]) := by
  induction defs with
  | nil => simp [pushDef, lookupA]
  | cons p t ih =>
    obtain ⟨a, l⟩ := p
    by_cases hp : a = mode
    · simp [pushDef, lookupA, hp]
    · simp only [pushDef]
      rw [if_neg hp]
      simp only [lookupA]
      rw [if_neg hp, if_neg hp]
      exact ih

theorem lookupA_foldl_objSet (l : List FlatDef) :
    ∀ (m : List (Str × FlatDef)) (k : Str),
      lookupA k (l.foldl (fun into item => objSet into item.figmaId item) m)
        = (match (l.filter (fun d => d.figmaId = k)).getLast? with
           | some e => some e
           | none => lookupA k m) := by
  induction l with
  | nil => intro m k; simp
  | cons d t ih =>
    intro m k
    simp only [List.foldl_cons]
    rw [ih]
    by_cases hd : d.figmaId = k
    · rcases h0 : t.filter (fun e => decide (e.figmaId = k)) with _ | ⟨e, fl⟩
      · simp [List.filter_cons, hd, h0, hd ▸ lookupA_objSet_self m d.figmaId d]
      · rcases hlast : (e :: fl).getLast? with _ | x
        · simp at hlast
        · simp [List.filter_cons, hd, h0, hlast]
    · have hne : k ≠ d.figmaId := fun e => hd e.symm
      simp [List.filter_cons, hd, lookupA_objSet_ne m d.figmaId k d hne]

theorem traverse_leaf_noext (definitions : DefMap) (v : Str) (ty desc : Option Str)
    (children : List (Str × TokenNode)) (reps : List (Str × Str)) (dk p : Str)
    (rem : Bool) (ct : Str) (keys : List Str) :
    traverse definitions (.obj (some v) ty desc none children) reps dk p rem ct keys
      = pushDef definitions (str "default")
          { property := str "--" ++ joinSep (str "-") keys,
            propertyName :=
              lowerFirst ((keys.map fun k => ((splitNonAlnum k).map capFirst).flatten).flatten),
            figmaId := str "UNDEFINED", description := desc.getD [],
            value := valueWithReplacements reps
              (valueToCSS (str "--" ++ joinSep (str "-") keys) v dk rem []),
            type := jsOrOpt ty ct } := by
  rfl

/-- C9 (confirmed, implicit): every flat definition `traverse` produces
for a leaf without extension data carries the sentinel figmaId
`"UNDEFINED"` (first conjunct: the definition appended for such a leaf,
i.e. the last entry of the `"default"` list, always has that id), and the
variable lookup table built by `initialize` is keyed by figmaId with
last-write-wins object assignment, so looking up any key — in particular
`"UNDEFINED"` — returns exactly the last flattened definition carrying it
(second conjunct). -/
theorem C9_undefined_collision :
    (∀ (definitions : DefMap) (v : Str) (ty desc : Option Str)
        (children : List (Str × TokenNode)) (reps : List (Str × Str)) (dk p : Str)
        (rem : Bool) (ct : Str) (keys : List Str),
      ((lookupA (str "default")
          (traverse definitions (.obj (some v) ty desc none children)
            reps dk p rem ct keys)).getD []).getLast?.map (fun d => d.figmaId)
        = some (str "UNDEFINED"))
    ∧ (∀ (processed : List (Str × CollSettings × DefMap)) (k : Str),
        lookupA k (buildVariableLookups processed)
          = ((allFlatDefs processed).filter (fun d => d.figmaId = k)).getLast?) := by
  constructor
  · intro definitions v ty desc children reps dk p rem ct keys
    rw [traverse_leaf_noext, lookupA_pushDef_self]
    simp
  · intro processed k
    unfold buildVariableLookups buildLookupFromDefs
    rw [lookupA_foldl_objSet]
    rcases h : ((allFlatDefs processed).filter (fun d => decide (d.figmaId = k))).getLast?
      with _ | e
    · rw [h]; rfl
    · rw [h]

/-! ## C2: collection skipping -/

theorem isPrefixL_append_self (l t : Str) : isPrefixL l (l ++ t) = true := by
  induction l with
  | nil => rfl
  | cons a as ih => simp [isPrefixL, ih]

theorem lookupA_ne_of_none {α : Type} {k : Str} {l : List (Str × α)}
    (h : lookupA k l = none) : ∀ p ∈ l, p.1 ≠ k := by
  induction l with
  | nil => intro p hp; cases hp
  | cons q t ih =>
    intro p hp
    simp only [lookupA] at h
    by_cases hq : q.1 = k
    · rw [if_pos hq] at h; cases h
    · rw [if_neg hq] at h
      rcases List.mem_cons.mp hp with rfl | hm
      · exact hq
      · exact ih h p hm

theorem processedOf_cons (data : List (Str × TokenNode)) (kv : Str × CollSettings)
    (t : List (Str × CollSettings)) :
    processedOf data (kv :: t)
      = (match lookupA (KEY_PREFIX_COLLECTION ++ kv.1) data with
         | none => processedOf data t
         | some node =>
           (kv.1, kv.2, processCollection node kv.2 (KEY_PREFIX_COLLECTION ++ kv.1))
             :: processedOf data t) := by
  simp only [processedOf, List.filterMap_cons]
  rcases lookupA (KEY_PREFIX_COLLECTION ++ kv.1) data with _ | node <;> rfl

theorem skipWarnsOf_cons (data : List (Str × TokenNode)) (kv : Str × CollSettings)
    (t : List (Str × CollSettings)) :
    skipWarnsOf data (kv :: t)
      = (match lookupA (KEY_PREFIX_COLLECTION ++ kv.1) data with
         | none => skipWarn (KEY_PREFIX_COLLECTION ++ kv.1) :: skipWarnsOf data t
         | some _ => skipWarnsOf data t) := by
  simp only [skipWarnsOf, List.filterMap_cons]
  rcases lookupA (KEY_PREFIX_COLLECTION ++ kv.1) data with _ | node <;> rfl

theorem processFold_eq (data : List (Str × TokenNode)) (cfg : List (Str × CollSettings)) :
    ∀ (a : List (Str × CollSettings × DefMap)) (w : List Str),
      cfg.foldl (processStep data) (a, w)
        = (a ++ processedOf data cfg, w ++ skipWarnsOf data cfg) := by
  induction cfg with
  | nil => intro a w; simp [processedOf, skipWarnsOf]
  | cons kv t ih =>
    intro a w
    simp only [List.foldl_cons]
    rw [processedOf_cons, skipWarnsOf_cons]
    rcases hl : lookupA (KEY_PREFIX_COLLECTION ++ kv.1) data with _ | node
    · have hstep : processStep data (a, w) kv
          = (a, w ++ [skipWarn (KEY_PREFIX_COLLECTION ++ kv.1)]) := by
        simp [processStep, hl]
      rw [hstep, ih]
      simp
    · have hstep : processStep data (a, w) kv
          = (a ++ [(kv.1, kv.2, processCollection node kv.2 (KEY_PREFIX_COLLECTION ++ kv.1))],
             w) := by
        simp [processStep, hl]
      rw [hstep, ih]
      simp

theorem processTokenJSON_eq (cfg : List (Str × CollSettings))
    (data : List (Str × TokenNode)) :
    (processTokenJSON cfg data).processed
        = processedOf data (ensureCollectionSettingsExist cfg (data.map (·.1))).1
    ∧ (processTokenJSON cfg data).warnings
        = (ensureCollectionSettingsExist cfg (data.map (·.1))).2
          ++ skipWarnsOf data (ensureCollectionSettingsExist cfg (data.map (·.1))).1 := by
  have h := processFold_eq data
    (ensureCollectionSettingsExist cfg (data.map (·.1))).1 []
    (ensureCollectionSettingsExist cfg (data.map (·.1))).2
  refine ⟨?_, ?_⟩
  · show (List.foldl (processStep data)
        ([], (ensureCollectionSettingsExist cfg (data.map (·.1))).2)
        (ensureCollectionSettingsExist cfg (data.map (·.1))).1).1 = _
    rw [h]
    exact List.nil_append _
  · show (List.foldl (processStep data)
        ([], (ensureCollectionSettingsExist cfg (data.map (·.1))).2)
        (ensureCollectionSettingsExist cfg (data.map (·.1))).1).2 = _
    rw [h]

theorem lookupA_processedOf_none {data : List (Str × TokenNode)} {k : Str}
    (hk : lookupA (KEY_PREFIX_COLLECTION ++ k) data = none) :
    ∀ cfg, lookupA k (processedOf data cfg) = none := by
  intro cfg
  induction cfg with
  | nil => rfl
  | cons kv t ih =>
    rw [processedOf_cons]
    rcases hl : lookupA (KEY_PREFIX_COLLECTION ++ kv.1) data with _ | node
    · exact ih
    · simp only [lookupA]
      by_cases he : kv.1 = k
      · rw [he] at hl; rw [hl] at hk; cases hk
      · rw [if_neg he]; exact ih

theorem mem_skipWarnsOf {data : List (Str × TokenNode)} {k : Str} {s : CollSettings}
    (hk : lookupA (KEY_PREFIX_COLLECTION ++ k) data = none) :
    ∀ cfg, (k, s) ∈ cfg →
      skipWarn (KEY_PREFIX_COLLECTION ++ k) ∈ skipWarnsOf data cfg := by
  intro cfg hmem
  induction cfg with
  | nil => cases hmem
  | cons kv t ih =>
    rw [skipWarnsOf_cons]
    rcases List.mem_cons.mp hmem with heq | hm
    · have h1 : kv.1 = k := by rw [← heq]
      rw [h1, hk]
      exact List.mem_cons_self _ _
    · rcases hl : lookupA (KEY_PREFIX_COLLECTION ++ kv.1) data with _ | node
      · exact List.mem_cons_of_mem _ (ih hm)
      · exact ih hm

theorem ensureStep_extends (acc : List (Str × CollSettings) × List Str) (dk : Str) :
    ∃ e, (ensureStep acc dk).1 = acc.1 ++ e := by
  unfold ensureStep
  split
  · show ∃ e, (if dk.drop KEY_PREFIX_COLLECTION.length = [] then acc
        else if (lookupA (dk.drop KEY_PREFIX_COLLECTION.length) acc.1).isSome then acc
        else (acc.1 ++ [(dk.drop KEY_PREFIX_COLLECTION.length,
                fallbackSettings (dk.drop KEY_PREFIX_COLLECTION.length))],
              acc.2 ++ [addedWarn (dk.drop KEY_PREFIX_COLLECTION.length)])).1
      = acc.1 ++ e
    split
    · exact ⟨[], (List.append_nil _).symm⟩
    · split
      · exact ⟨[], (List.append_nil _).symm⟩
      · exact ⟨_, rfl⟩
  · exact ⟨[], (List.append_nil _).symm⟩

theorem ensureFold_extends (dks : List Str) :
    ∀ acc : List (Str × CollSettings) × List Str,
      ∃ ex, (dks.foldl ensureStep acc).1 = acc.1 ++ ex := by
  induction dks with
  | nil => intro acc; exact ⟨[], (List.append_nil _).symm⟩
  | cons dk t ih =>
    intro acc
    simp only [List.foldl_cons]
    obtain ⟨ex, hex⟩ := ih (ensureStep acc dk)
    obtain ⟨e, he⟩ := ensureStep_extends acc dk
    exact ⟨e ++ ex, by rw [hex, he, List.append_assoc]⟩

theorem ensure_single (cfg : List (Str × CollSettings)) (nk : Str)
    (h1 : nk ≠ []) (h2 : lookupA nk cfg = none) :
    ensureCollectionSettingsExist cfg [KEY_PREFIX_COLLECTION ++ nk]
      = (cfg ++ [(nk, fallbackSettings nk)], [addedWarn nk]) := by
  unfold ensureCollectionSettingsExist ensureStep
  simp only [List.foldl_cons, List.foldl_nil, isPrefixL_append_self, if_true,
    List.drop_left, h2, Option.isSome_none]
  rw [if_neg h1]
  rfl

theorem processedOf_single_nil (nk : Str) (node : TokenNode) :
    ∀ cfg : List (Str × CollSettings), (∀ p ∈ cfg, p.1 ≠ nk) →
      processedOf [(KEY_PREFIX_COLLECTION ++ nk, node)] cfg = [] := by
  intro cfg hcfg
  induction cfg with
  | nil => rfl
  | cons kv t ih =>
    rw [processedOf_cons]
    have hne : ¬ (KEY_PREFIX_COLLECTION ++ nk = KEY_PREFIX_COLLECTION ++ kv.1) := by
      intro he
      exact hcfg kv (List.mem_cons_self _ _) (List.append_cancel_left he).symm
    have hl : lookupA (KEY_PREFIX_COLLECTION ++ kv.1)
        [(KEY_PREFIX_COLLECTION ++ nk, node)] = none := by
      simp only [lookupA]
      rw [if_neg hne]
    rw [hl]
    exact ih fun p hp => hcfg p (List.mem_cons_of_mem _ hp)

/-- C2 (corrected): the first half of the claim holds — a configured
collection key absent from the token document is skipped with a warning,
contributes nothing to the processed output, and (by totality of the
embedding) nothing throws.  The second half is false on the code: a
collection key present in the document but missing from the configuration
is NOT skipped; `ensureCollectionSettingsExist` appends default settings
for it (with a different warning) and the collection is then processed
normally, producing output. -/
theorem C2_collection_skipping :
    (∀ (cfg : List (Str × CollSettings)) (data : List (Str × TokenNode)) (k : Str)
        (s : CollSettings), (k, s) ∈ cfg →
      lookupA (KEY_PREFIX_COLLECTION ++ k) data = none →
        lookupA k (processTokenJSON cfg data).processed = none
        ∧ skipWarn (KEY_PREFIX_COLLECTION ++ k) ∈ (processTokenJSON cfg data).warnings)
    ∧ (∀ (cfg : List (Str × CollSettings)) (nk : Str) (node : TokenNode),
        nk ≠ [] → lookupA nk cfg = none →
        (processTokenJSON cfg [(KEY_PREFIX_COLLECTION ++ nk, node)]).processed
          = [(nk, fallbackSettings nk,
              processCollection node (fallbackSettings nk) (KEY_PREFIX_COLLECTION ++ nk))]
        ∧ addedWarn nk
            ∈ (processTokenJSON cfg [(KEY_PREFIX_COLLECTION ++ nk, node)]).warnings) := by
  constructor
  · intro cfg data k s hmem hk
    obtain ⟨hp, hw⟩ := processTokenJSON_eq cfg data
    constructor
    · rw [hp]
      exact lookupA_processedOf_none hk _
    · rw [hw]
      obtain ⟨ex, hex⟩ := ensureFold_extends (data.map (·.1)) (cfg, [])
      have hmem2 : (k, s) ∈ (ensureCollectionSettingsExist cfg (data.map (·.1))).1 := by
        show (k, s) ∈ ((data.map (·.1)).foldl ensureStep (cfg, [])).1
        rw [hex]
        exact List.mem_append_left _ hmem
      exact List.mem_append_right _ (mem_skipWarnsOf hk _ hmem2)
  · intro cfg nk node h1 h2
    obtain ⟨hp, hw⟩ := processTokenJSON_eq cfg [(KEY_PREFIX_COLLECTION ++ nk, node)]
    have hmap : ([(KEY_PREFIX_COLLECTION ++ nk, node)].map (fun x => x.1))
        = [KEY_PREFIX_COLLECTION ++ nk] := rfl
    rw [hmap, ensure_single cfg nk h1 h2] at hp hw
    have hterms : ∀ p ∈ cfg, p.1 ≠ nk := lookupA_ne_of_none h2
    constructor
    · rw [hp]
      show processedOf _ (cfg ++ [(nk, fallbackSettings nk)]) = _
      rw [show processedOf [(KEY_PREFIX_COLLECTION ++ nk, node)]
            (cfg ++ [(nk, fallbackSettings nk)])
          = processedOf [(KEY_PREFIX_COLLECTION ++ nk, node)] cfg
            ++ processedOf [(KEY_PREFIX_COLLECTION ++ nk, node)] [(nk, fallbackSettings nk)]
        from by simp [processedOf, List.filterMap_append]]
      rw [processedOf_single_nil nk node cfg hterms]
      simp [processedOf, lookupA]
    · rw [hw]
      exact List.mem_append_left _ (List.mem_cons_self _ _)

/-- C2 counterexample for the claim's second half: with an empty
configuration and a token document holding one collection `"@foo"` that no
configuration mentions, the run does NOT skip it — it is processed (it
appears in the processed output, with definitions) and the warning emitted
is the added-default-settings one. -/
theorem C2_counterexample :
    ((processTokenJSON [] [(str "@foo", .obj (some (str "1")) none none none [])]).processed.map
      (fun p => p.1)) = [str "foo"]
    ∧ (lookupA (str "foo")
        (processTokenJSON [] [(str "@foo",
          .obj (some (str "1")) none none none [])]).processed).isSome = true
    ∧ addedWarn (str "foo")
        ∈ (processTokenJSON [] [(str "@foo",
            .obj (some (str "1")) none none none [])]).warnings := by
  decide

/-- Witness for `C2_collection_skipping`, instantiating the absent-key half
at a configured collection `"color"` with an empty document, and the
unconfigured-key half at the document collection `"@foo"`. -/
theorem C2_collection_skipping_witness :
    ((str "color", ({ pfx := str "color" } : CollSettings)) ∈
        [(str "color", ({ pfx := str "color" } : CollSettings))]
      ∧ (∀ node : TokenNode,
          lookupA (KEY_PREFIX_COLLECTION ++ str "color") ([] : List (Str × TokenNode))
            ≠ some node)
      ∧ lookupA (str "color")
          (processTokenJSON [(str "color", { pfx := str "color" })] []).processed = none
      ∧ skipWarn (KEY_PREFIX_COLLECTION ++ str "color")
          ∈ (processTokenJSON [(str "color", { pfx := str "color" })] []).warnings)
    ∧ (str "foo" ≠ ([] : Str)
      ∧ lookupA (str "foo") ([] : List (Str × CollSettings)) = none
      ∧ (processTokenJSON []
            [(KEY_PREFIX_COLLECTION ++ str "foo",
              .obj (some (str "1")) none none none [])]).processed
          = [(str "foo", fallbackSettings (str "foo"),
              processCollection (.obj (some (str "1")) none none none [])
                (fallbackSettings (str "foo")) (KEY_PREFIX_COLLECTION ++ str "foo"))]
      ∧ addedWarn (str "foo")
          ∈ (processTokenJSON []
              [(KEY_PREFIX_COLLECTION ++ str "foo",
                .obj (some (str "1")) none none none [])]).warnings) :=
  by
  refine ⟨⟨?_, ?_, ?_, ?_⟩, ⟨?_, ?_, ?_, ?_⟩⟩
  · decide
  · intro _ h; cases h
  · exact (C2_collection_skipping.1 [(str "color", { pfx := str "color" })] []
      (str "color") { pfx := str "color" } (by decide) rfl).1
  · exact (C2_collection_skipping.1 [(str "color", { pfx := str "color" })] []
      (str "color") { pfx := str "color" } (by decide) rfl).2
  · decide
  · rfl
  · exact (C2_collection_skipping.2 [] (str "foo")
      (.obj (some (str "1")) none none none []) (by decide) rfl).1
  · exact (C2_collection_skipping.2 [] (str "foo")
      (.obj (some (str "1")) none none none []) (by decide) rfl).2

/-! ## C1: alias rewrite round-trip -/

theorem toLowerL_fix {s : Str} (h : cssClean s = true) : toLowerL s = s := by
  induction s with
  | nil => rfl
  | cons c t ih =>
    simp only [cssClean, List.all_cons, Bool.and_eq_true] at h
    obtain ⟨hc, ht⟩ := h
    simp only [cssOk, Bool.and_eq_true, beq_iff_eq] at hc
    simp only [toLowerL, List.map_cons]
    rw [hc.1.1.1.1.1]
    exact congrArg _ (ih ht)

theorem hyphSep_fix {s : Str} (h : cssClean s = true) : hyphSep s = s := by
  induction s with
  | nil => rfl
  | cons c t ih =>
    simp only [cssClean, List.all_cons, Bool.and_eq_true] at h
    obtain ⟨hc, ht⟩ := h
    simp only [cssOk, Bool.and_eq_true, beq_iff_eq, Bool.not_eq_true', beq_eq_false_iff_ne] at hc
    simp only [hyphSep, List.map_cons]
    rw [if_neg (by push_neg; exact ⟨hc.1.1.1.1.2, hc.1.1.1.2⟩)]
    exact congrArg _ (ih ht)

theorem hyphSep_append (a b : Str) : hyphSep (a ++ b) = hyphSep a ++ hyphSep b :=
  List.map_append _ a b

theorem toLowerL_append (a b : Str) : toLowerL (a ++ b) = toLowerL a ++ toLowerL b :=
  List.map_append _ a b

theorem joinSep_dot_hyph {segs : List Str} (h : ∀ x ∈ segs, cssClean x = true) :
    hyphSep (joinSep (str ".") segs) = joinSep (str "-") segs := by
  induction segs with
  | nil => rfl
  | cons x t ih =>
    cases t with
    | nil => exact hyphSep_fix (h x (List.mem_cons_self _ _))
    | cons y u =>
      show hyphSep (x ++ str "." ++ joinSep (str ".") (y :: u))
        = x ++ str "-" ++ joinSep (str "-") (y :: u)
      rw [hyphSep_append, hyphSep_append,
        hyphSep_fix (h x (List.mem_cons_self _ _)),
        ih fun z hz => h z (List.mem_cons_of_mem _ hz)]
      rfl

theorem cssClean_append {a b : Str} (ha : cssClean a = true) (hb : cssClean b = true) :
    cssClean (a ++ b) = true := by
  simp only [cssClean, List.all_append, Bool.and_eq_true]
  exact ⟨ha, hb⟩

theorem cssClean_joinSep_hyphen {segs : List Str} (h : ∀ x ∈ segs, cssClean x = true) :
    cssClean (joinSep (str "-") segs) = true := by
  induction segs with
  | nil => rfl
  | cons x t ih =>
    cases t with
    | nil => exact h x (List.mem_cons_self _ _)
    | cons y u =>
      show cssClean (x ++ str "-" ++ joinSep (str "-") (y :: u)) = true
      exact cssClean_append
        (cssClean_append (h x (List.mem_cons_self _ _)) (by decide))
        (ih fun z hz => h z (List.mem_cons_of_mem _ hz))

theorem replaceFirstL_brace_marker (pat repl rest : Str) (hne : pat ≠ [])
    (hd : pat.head? ≠ some '{') :
    replaceFirstL pat repl ('{' :: (pat ++ rest)) = '{' :: (repl ++ rest) := by
  obtain ⟨d, dt, rfl⟩ : ∃ d dt, pat = d :: dt := by
    cases pat with
    | nil => cases hne rfl
    | cons d dt => exact ⟨d, dt, rfl⟩
  have hd' : ¬ (d == '{') = true := by
    simp only [List.head?] at hd
    simpa using fun e => hd (by rw [e])
  simp only [replaceFirstL]
  rw [if_neg (by simp [isPrefixL, hd'])]
  rw [if_pos (by
    show isPrefixL (d :: dt) ((d :: dt) ++ rest) = true
    exact isPrefixL_append_self _ _)]
  show '{' :: (repl ++ List.drop (d :: dt).length ((d :: dt) ++ rest))
    = '{' :: (repl ++ rest)
  rw [List.drop_left]

theorem stripTrailBrace_concat (l : Str) : stripTrailBrace (l ++ ['}']) = l := by
  unfold stripTrailBrace
  rw [show (l ++ ['}']).reverse = '}' :: l.reverse by simp]
  simp

theorem valueToCSS_alias_clean (property defKey p : Str) (segs : List Str) (rem : Bool)
    (hdk1 : defKey ≠ []) (hdk2 : defKey.head? ≠ some '{')
    (hp : cssClean p = true) (hs : ∀ x ∈ segs, cssClean x = true) :
    valueToCSS property (aliasValue defKey segs) defKey rem p
      = .strv (str "var(--" ++ (p ++ '-' :: joinSep (str "-") segs) ++ str ")") := by
  have h1 : replaceFirstL defKey p (aliasValue defKey segs)
      = '{' :: (p ++ '.' :: (joinSep (str ".") segs ++ ['}'])) :=
    replaceFirstL_brace_marker defKey p _ hdk1 hdk2
  have h2 : hyphSep ('{' :: (p ++ '.' :: (joinSep (str ".") segs ++ ['}'])))
      = '{' :: (p ++ '-' :: (joinSep (str "-") segs ++ ['}'])) := by
    have e1 : '{' :: (p ++ '.' :: (joinSep (str ".") segs ++ ['}']))
        = ['{'] ++ p ++ ['.'] ++ joinSep (str ".") segs ++ ['}'] := by simp
    have e2 : '{' :: (p ++ '-' :: (joinSep (str "-") segs ++ ['}']))
        = ['{'] ++ p ++ ['-'] ++ joinSep (str "-") segs ++ ['}'] := by simp
    rw [e1, e2, hyphSep_append, hyphSep_append, hyphSep_append, hyphSep_append,
      hyphSep_fix hp, joinSep_dot_hyph hs]
    rfl
  have h3 : valueToCSS property (aliasValue defKey segs) defKey rem p
      = .strv (str "var(--" ++
          stripTrailBrace (stripLeadBrace
            (hyphSep (replaceFirstL defKey p (aliasValue defKey segs)))) ++ str ")") := by
    unfold valueToCSS
    rw [if_pos (show List.head? (aliasValue defKey segs) = some '{' from rfl)]
  rw [h3, h1, h2]
  have h4 : stripLeadBrace ('{' :: (p ++ '-' :: (joinSep (str "-") segs ++ ['}'])))
      = p ++ '-' :: (joinSep (str "-") segs ++ ['}']) := rfl
  rw [h4]
  have e3 : p ++ '-' :: (joinSep (str "-") segs ++ ['}'])
      = (p ++ '-' :: joinSep (str "-") segs) ++ ['}'] := by simp
  rw [e3, stripTrailBrace_concat]

theorem traverse_chain (segs : List Str) :
    ∀ (defs : DefMap) (t : TokenNode) (reps : List (Str × Str)) (dk p : Str) (rem : Bool)
      (ct : Str) (keys : List Str),
      (∀ x ∈ segs, x.head? ≠ some '$') →
      traverse defs (chainNode segs t) reps dk p rem ct keys
        = traverse defs t reps dk p rem ct (keys ++ segs) := by
  induction segs with
  | nil => intro defs t reps dk p rem ct keys _; rw [List.append_nil]; rfl
  | cons x u ih =>
    intro defs t reps dk p rem ct keys hseg
    have hx : ¬ (x.head? = some '$') := hseg x (List.mem_cons_self _ _)
    have h1 : traverse defs (chainNode (x :: u) t) reps dk p rem ct keys
        = (if x.head? = some '$' then defs
           else traverse defs (chainNode u t) reps dk p rem ct (keys ++ [x])) := rfl
    rw [h1, if_neg hx, ih defs t reps dk p rem ct (keys ++ [x])
      (fun z hz => hseg z (List.mem_cons_of_mem _ hz))]
    rw [List.append_assoc]
    rfl

theorem traverse_modeLeaf (definitions : DefMap) (v fid m : Str) (reps : List (Str × Str))
    (dk p : Str) (rem : Bool) (ct : Str) (keys : List Str) :
    traverse definitions (modeLeaf v fid m) reps dk p rem ct keys
      = pushDef definitions m
          { property := str "--" ++ joinSep (str "-") keys,
            propertyName :=
              lowerFirst ((keys.map fun k => ((splitNonAlnum k).map capFirst).flatten).flatten),
            figmaId := fid, description := [],
            value := valueWithReplacements reps
              (valueToCSS (str "--" ++ joinSep (str "-") keys) v dk rem p),
            type := ct } := rfl

theorem pushDef_singleton_ne (k : Str) (l : List FlatDef) (m : Str) (d : FlatDef)
    (h : k ≠ m) : pushDef [(k, l)] m d = [(k, l), (m, [d])] := by
  unfold pushDef
  rw [if_neg h]
  rfl

theorem cssClean_head_ne_dollar {x : Str} (h : cssClean x = true) :
    x.head? ≠ some '$' := by
  cases x with
  | nil => simp
  | cons c t =>
    simp only [cssClean, List.all_cons, Bool.and_eq_true] at h
    have hc := h.1
    simp only [cssOk, Bool.and_eq_true, Bool.not_eq_true', beq_eq_false_iff_ne] at hc
    simp only [List.head?, ne_eq, Option.some.injEq]
    exact fun e => hc.2 e

theorem traverse_container (defs : DefMap) (children : List (Str × TokenNode))
    (reps : List (Str × Str)) (dk p : Str) (rem : Bool) (ct : Str) (keys : List Str) :
    traverse defs (.obj none none none none children) reps dk p rem ct keys
      = traverseChildren defs children reps dk p rem (jsOrOpt none ct) keys := rfl

theorem traverseChildren_cons (defs : DefMap) (k : Str) (c : TokenNode)
    (rest : List (Str × TokenNode)) (reps : List (Str × Str)) (dk p : Str) (rem : Bool)
    (ct : Str) (keys : List Str) :
    traverseChildren defs ((k, c) :: rest) reps dk p rem ct keys
      = traverseChildren
          (if k.head? = some '$' then defs
           else traverse defs c reps dk p rem ct (keys ++ [k]))
          rest reps dk p rem ct keys := rfl

theorem traverseChildren_nil (defs : DefMap) (reps : List (Str × Str)) (dk p : Str)
    (rem : Bool) (ct : Str) (keys : List Str) :
    traverseChildren defs [] reps dk p rem ct keys = defs := rfl

theorem traverse_plainLeaf (defs : DefMap) (v : Str) (reps : List (Str × Str)) (dk p : Str)
    (rem : Bool) (ct : Str) (keys : List Str) :
    traverse defs (plainLeaf v) reps dk p rem ct keys
      = pushDef defs (str "default")
          { property := str "--" ++ joinSep (str "-") keys,
            propertyName :=
              lowerFirst ((keys.map fun k => ((splitNonAlnum k).map capFirst).flatten).flatten),
            figmaId := str "UNDEFINED", description := [],
            value := valueWithReplacements reps
              (valueToCSS (str "--" ++ joinSep (str "-") keys) v dk rem []),
            type := ct } := rfl

theorem pushDef_nil (mode : Str) (d : FlatDef) : pushDef [] mode d = [(mode, [d])] := rfl

theorem processCollection_aliasTestTree
    (p' s0 : Str) (u : List Str) (refVal aliasKey fid m defKey : Str) (rem : Bool)
    (hs0 : cssClean s0 = true) (hu : ∀ x ∈ u, cssClean x = true)
    (ha : aliasKey.head? ≠ some '$') (hm : m ≠ str "default") :
    processCollection (aliasTestTree s0 u refVal aliasKey fid m defKey)
        (aliasTestSettings p' rem) defKey
      = [(str "default",
          [{ property := str "--" ++ joinSep (str "-") ((tokenPfx ++ p') :: s0 :: u),
             propertyName := lowerFirst ((((tokenPfx ++ p') :: s0 :: u).map fun k =>
               ((splitNonAlnum k).map capFirst).flatten).flatten),
             figmaId := str "UNDEFINED", description := [],
             value := valueWithReplacements []
               (valueToCSS (str "--" ++ joinSep (str "-") ((tokenPfx ++ p') :: s0 :: u))
                 refVal defKey rem []),
             type := [] }]),
         (m,
          [{ property := str "--" ++ joinSep (str "-") [tokenPfx ++ p', aliasKey],
             propertyName := lowerFirst (([tokenPfx ++ p', aliasKey].map fun k =>
               ((splitNonAlnum k).map capFirst).flatten).flatten),
             figmaId := fid, description := [],
             value := valueWithReplacements []
               (valueToCSS (str "--" ++ joinSep (str "-") [tokenPfx ++ p', aliasKey])
                 (aliasValue defKey (s0 :: u)) defKey rem (tokenPfx ++ p')),
             type := [] }])] := by
  have hpne : tokenPfx ++ p' ≠ [] := by
    rw [show tokenPfx ++ p' = 'w' :: (str "ds-" ++ p') from rfl]
    simp
  rw [show processCollection (aliasTestTree s0 u refVal aliasKey fid m defKey)
        (aliasTestSettings p' rem) defKey
      = traverse [] (aliasTestTree s0 u refVal aliasKey fid m defKey) [] defKey
          (tokenPfx ++ p') rem []
          (if tokenPfx ++ p' = [] then [] else [tokenPfx ++ p']) from rfl,
    if_neg hpne]
  show traverse []
      (.obj none none none none
        [(s0, chainNode u (plainLeaf refVal)),
         (aliasKey, modeLeaf (aliasValue defKey (s0 :: u)) fid m)])
      [] defKey (tokenPfx ++ p') rem [] [tokenPfx ++ p'] = _
  rw [traverse_container,
    show jsOrOpt none ([] : Str) = [] from rfl,
    traverseChildren_cons, if_neg (cssClean_head_ne_dollar hs0),
    traverse_chain u [] (plainLeaf refVal) [] defKey (tokenPfx ++ p') rem []
      ([tokenPfx ++ p'] ++ [s0]) (fun z hz => cssClean_head_ne_dollar (hu z hz)),
    show ([tokenPfx ++ p'] ++ [s0]) ++ u = (tokenPfx ++ p') :: s0 :: u from by simp,
    traverse_plainLeaf, pushDef_nil,
    traverseChildren_cons, if_neg ha, traverseChildren_nil,
    traverse_modeLeaf,
    pushDef_singleton_ne _ _ _ _ (fun e => hm e.symm)]
  rfl

theorem processCollection_aliasTestTreeDefault
    (p' aliasKey defKey : Str) (segs : List Str) (rem : Bool)
    (ha : aliasKey.head? ≠ some '$') :
    processCollection (aliasTestTreeDefault aliasKey defKey segs)
        (aliasTestSettings p' rem) defKey
      = [(str "default",
          [{ property := str "--" ++ joinSep (str "-") [tokenPfx ++ p', aliasKey],
             propertyName := lowerFirst (([tokenPfx ++ p', aliasKey].map fun k =>
               ((splitNonAlnum k).map capFirst).flatten).flatten),
             figmaId := str "UNDEFINED", description := [],
             value := valueWithReplacements []
               (valueToCSS (str "--" ++ joinSep (str "-") [tokenPfx ++ p', aliasKey])
                 (aliasValue defKey segs) defKey rem []),
             type := [] }])] := by
  have hpne : tokenPfx ++ p' ≠ [] := by
    rw [show tokenPfx ++ p' = 'w' :: (str "ds-" ++ p') from rfl]
    simp
  rw [show processCollection (aliasTestTreeDefault aliasKey defKey segs)
        (aliasTestSettings p' rem) defKey
      = traverse [] (aliasTestTreeDefault aliasKey defKey segs) [] defKey
          (tokenPfx ++ p') rem []
          (if tokenPfx ++ p' = [] then [] else [tokenPfx ++ p']) from rfl,
    if_neg hpne]
  show traverse []
      (.obj none none none none [(aliasKey, plainLeaf (aliasValue defKey segs))])
      [] defKey (tokenPfx ++ p') rem [] [tokenPfx ++ p'] = _
  rw [traverse_container,
    show jsOrOpt none ([] : Str) = [] from rfl,
    traverseChildren_cons, if_neg ha, traverseChildren_nil,
    traverse_plainLeaf, pushDef_nil]
  rfl

theorem lookupA_cons_self {α : Type} (k : Str) (v : α) (t : List (Str × α)) :
    lookupA k ((k, v) :: t) = some v := by
  simp [lookupA]

theorem lookupA_cons_ne {α : Type} (k0 k : Str) (v : α) (t : List (Str × α))
    (h : k0 ≠ k) : lookupA k ((k0, v) :: t) = lookupA k t := by
  simp only [lookupA]
  rw [if_neg h]

theorem valueWithReplacements_nil_strv (x : Str) :
    valueWithReplacements [] (.strv x) = toLowerL x := rfl

/-- C1 (amended): the alias rewrite round-trip holds for leaves with
per-mode extension data: the collection's raw key is replaced by the
collection's full CSS prefix, separators become hyphens, the braces are
stripped, and the stored value is exactly `var(<property>)` where
`<property>` is the custom-property name the traverser generates for the
referenced token (first two conjuncts).  For leaves without extension data
(the implicit `"default"` mode) the claim fails: `valueToCSS` is called
with an empty prefix, so the raw key is replaced by the empty string and
the emitted reference omits the collection prefix entirely (third
conjunct). -/
theorem C1_alias_roundtrip
    (p' s0 : Str) (u : List Str) (refVal aliasKey fid m defKey : Str) (rem : Bool)
    (hp : cssClean p' = true) (hs0 : cssClean s0 = true)
    (hu : ∀ x ∈ u, cssClean x = true)
    (ha : aliasKey.head? ≠ some '$') (hm : m ≠ str "default")
    (hdk1 : defKey ≠ []) (hdk2 : defKey.head? ≠ some '{') :
    (lookupA (str "default")
        (processCollection (aliasTestTree s0 u refVal aliasKey fid m defKey)
          (aliasTestSettings p' rem) defKey)).map (fun l => l.map fun d => d.property)
      = some [str "--" ++ joinSep (str "-") ((tokenPfx ++ p') :: s0 :: u)]
    ∧ (lookupA m
        (processCollection (aliasTestTree s0 u refVal aliasKey fid m defKey)
          (aliasTestSettings p' rem) defKey)).map (fun l => l.map fun d => d.value)
      = some [str "var(" ++
          (str "--" ++ joinSep (str "-") ((tokenPfx ++ p') :: s0 :: u)) ++ str ")"]
    ∧ (lookupA (str "default")
        (processCollection (aliasTestTreeDefault aliasKey defKey (s0 :: u))
          (aliasTestSettings p' rem) defKey)).map (fun l => l.map fun d => d.value)
      = some [str "var(--" ++ ('-' :: joinSep (str "-") (s0 :: u)) ++ str ")"] := by
  have hsall : ∀ x ∈ s0 :: u, cssClean x = true := by
    intro x hx
    rcases List.mem_cons.mp hx with rfl | h
    · exact hs0
    · exact hu x h
  have hP : cssClean (tokenPfx ++ p') = true := cssClean_append (by decide) hp
  have hdash : cssClean ('-' :: joinSep (str "-") (s0 :: u)) = true := by
    rw [show '-' :: joinSep (str "-") (s0 :: u)
        = ['-'] ++ joinSep (str "-") (s0 :: u) from rfl]
    exact cssClean_append (by decide) (cssClean_joinSep_hyphen hsall)
  refine ⟨?_, ?_, ?_⟩
  · rw [processCollection_aliasTestTree p' s0 u refVal aliasKey fid m defKey rem
      hs0 hu ha hm]
    rfl
  · rw [processCollection_aliasTestTree p' s0 u refVal aliasKey fid m defKey rem
      hs0 hu ha hm]
    rw [lookupA_cons_ne _ _ _ _ (fun e => hm e.symm), lookupA_cons_self]
    simp only [Option.map_some', List.map_cons, List.map_nil]
    rw [valueToCSS_alias_clean _ defKey (tokenPfx ++ p') (s0 :: u) rem hdk1 hdk2 hP hsall,
      valueWithReplacements_nil_strv,
      toLowerL_fix (cssClean_append (cssClean_append (by decide)
        (cssClean_append hP hdash)) (by decide))]
    rw [show joinSep (str "-") ((tokenPfx ++ p') :: s0 :: u)
        = (tokenPfx ++ p') ++ str "-" ++ joinSep (str "-") (s0 :: u) from rfl]
    rw [show (str "var(" : Str) ++
          (str "--" ++ ((tokenPfx ++ p') ++ str "-" ++ joinSep (str "-") (s0 :: u)))
        = str "var(--" ++ ((tokenPfx ++ p') ++ str "-" ++ joinSep (str "-") (s0 :: u))
      from by rw [← List.append_assoc]; rfl]
    simp [List.append_assoc]
    rfl
  · rw [processCollection_aliasTestTreeDefault p' aliasKey defKey (s0 :: u) rem ha]
    simp only [lookupA_cons_self, Option.map_some', List.map_cons, List.map_nil]
    rw [valueToCSS_alias_clean _ defKey [] (s0 :: u) rem hdk1 hdk2 (by decide) hsall,
      valueWithReplacements_nil_strv]
    simp only [List.nil_append]
    rw [toLowerL_fix (cssClean_append (cssClean_append (by decide) hdash) (by decide))]

/-- C1 counterexample for the default-mode half of the frozen claim: in
collection `@color` (CSS prefix `wds-color`), the referenced token
`blue.500` gets the generated property `--wds-color-blue-500`, but a
default-mode alias leaf referencing `\x7b@color.blue.500\x7d` stores
`var(---blue-500)` — the raw key was replaced by the empty string, not the
prefix — which is not `var(--wds-color-blue-500)`. -/
theorem C1_counterexample :
    (lookupA (str "default")
        (processCollection c1Tree (aliasTestSettings (str "color") true)
          (str "@color"))).map (fun l => l.map fun d => (d.property, d.value))
      = some [(str "--wds-color-blue-500", str "#00f"),
              (str "--wds-color-accent", str "var(---blue-500)")]
    ∧ str "var(---blue-500)" ≠ str "var(--wds-color-blue-500)" := by
  decide

/-- Witness for `C1_alias_roundtrip` at the collection prefix `color`, the
referenced path `blue.500`, alias key `accent`, mode `dark` and raw
collection key `@color`. -/
theorem C1_alias_roundtrip_witness :
    (cssClean (str "color") = true ∧ cssClean (str "blue") = true
      ∧ (∀ x ∈ [str "500"], cssClean x = true)
      ∧ (str "accent").head? ≠ some '$' ∧ str "dark" ≠ str "default"
      ∧ str "@color" ≠ ([] : Str) ∧ (str "@color").head? ≠ some '{')
    ∧ (lookupA (str "default")
        (processCollection (aliasTestTree (str "blue") [str "500"] (str "#00f")
            (str "accent") (str "VariableID:9") (str "dark") (str "@color"))
          (aliasTestSettings (str "color") true) (str "@color"))).map
        (fun l => l.map fun d => d.property)
      = some [str "--" ++
          joinSep (str "-") ((tokenPfx ++ str "color") :: str "blue" :: [str "500"])]
    ∧ (lookupA (str "dark")
        (processCollection (aliasTestTree (str "blue") [str "500"] (str "#00f")
            (str "accent") (str "VariableID:9") (str "dark") (str "@color"))
          (aliasTestSettings (str "color") true) (str "@color"))).map
        (fun l => l.map fun d => d.value)
      = some [str "var(" ++ (str "--" ++
          joinSep (str "-") ((tokenPfx ++ str "color") :: str "blue" :: [str "500"]))
          ++ str ")"]
    ∧ (lookupA (str "default")
        (processCollection (aliasTestTreeDefault (str "accent") (str "@color")
            (str "blue" :: [str "500"]))
          (aliasTestSettings (str "color") true) (str "@color"))).map
        (fun l => l.map fun d => d.value)
      = some [str "var(--" ++ ('-' :: joinSep (str "-") (str "blue" :: [str "500"]))
          ++ str ")"] := by
  refine ⟨⟨?_, ?_, ?_, ?_, ?_, ?_, ?_⟩, ?_, ?_, ?_⟩
  · decide
  · decide
  · decide
  · decide
  · decide
  · decide
  · decide
  · exact (C1_alias_roundtrip (str "color") (str "blue") [str "500"] (str "#00f")
      (str "accent") (str "VariableID:9") (str "dark") (str "@color") true
      (by decide) (by decide) (by decide) (by decide) (by decide) (by decide)
      (by decide)).1
  · exact (C1_alias_roundtrip (str "color") (str "blue") [str "500"] (str "#00f")
      (str "accent") (str "VariableID:9") (str "dark") (str "@color") true
      (by decide) (by decide) (by decide) (by decide) (by decide) (by decide)
      (by decide)).2.1
  · exact (C1_alias_roundtrip (str "color") (str "blue") [str "500"] (str "#00f")
      (str "accent") (str "VariableID:9") (str "dark") (str "@color") true
      (by decide) (by decide) (by decide) (by decide) (by decide) (by decide)
      (by decide)).2.2
